import Mathlib

/-!
Shallow embedding of `fetch_bitcoin_data.py` (Bitcoin 5-minute data fetcher).

Instants are modelled as epoch seconds (`Nat`); `pd.to_datetime(ts, unit='s',
utc=True)` is the identity on epoch seconds in this model.  Numeric price and
volume cells are modelled as `Option Rat`: `pd.to_numeric(col, errors='coerce')`
sends an unparseable cell to `none` (the NaN sentinel) and a parseable one to
`some q`.  The wall clock (`datetime.now(timezone.utc)`, re-read each loop
iteration in the source) is modelled as a constant parameter `now`, i.e. an
injected frozen clock (cf. spec §9 on injecting a clock capability).
`pandas.DataFrame.sort_values` is not stable (default quicksort); we model it
with insertion sort, and no theorem below depends on the order among rows with
equal timestamps.
-/

namespace BtcFetch

/-- One raw numeric cell of a provider record: either a parseable number or a
malformed value that `pd.to_numeric(..., errors='coerce')` turns into NaN. -/
inductive RawField where
  | num (q : Rat)
  | malformed
deriving DecidableEq

/-- Lines 131-132: `pd.to_numeric(df[col], errors='coerce')` on one cell. -/
def coerceNum : RawField → Option Rat
  | .num q => some q
  | .malformed => none

/-- One raw provider record, a 6-element array in provider positional order
`[epoch_seconds, low, high, open, close, volume]` (comment at line 127 and
the column labels at line 128). -/
abbrev RawRecord := Nat × RawField × RawField × RawField × RawField × RawField

/-- One canonical candle row of the store, columns in the canonical order
`timestamp, open, high, low, close, volume, source` (lines 134-135). -/
structure Row where
  timestamp : Nat
  «open» : Option Rat
  high : Option Rat
  low : Option Rat
  close : Option Rat
  volume : Option Rat
  source : String
deriving DecidableEq

/-- Lines 128-135: turn one raw positional record into one canonical row.
Position 2 of the raw record is labelled `low`, position 3 `high`, position 4
`open` (line 128); the canonical column selection at line 134 reorders them to
`open, high, low`; line 129 parses the epoch-seconds field; line 135 tags the
fixed source. -/
def normalize : RawRecord → Row
  | (t, l, h, o, c, v) =>
    { timestamp := t
      «open» := coerceNum o
      high := coerceNum h
      low := coerceNum l
      close := coerceNum c
      volume := coerceNum v
      source := "coinbase" }

/-- The timestamp column of a row sequence. -/
def tsList (l : List Row) : List Nat := l.map Row.timestamp

/-- Comparison used by `sort_values('timestamp')` (lines 136 and 176). -/
def rowLE (a b : Row) : Prop := a.timestamp ≤ b.timestamp

instance : DecidableRel rowLE := fun a b => Nat.decLe a.timestamp b.timestamp

instance : IsTotal Row rowLE := ⟨fun a b => Nat.le_total a.timestamp b.timestamp⟩

instance : IsTrans Row rowLE := ⟨fun _ _ _ h₁ h₂ => Nat.le_trans h₁ h₂⟩

/-- `df.sort_values('timestamp')` (lines 136 and 176). -/
def sortRows (l : List Row) : List Row := List.insertionSort rowLE l

/-- Worker for `drop_duplicates(subset=['timestamp'], keep='first')`: keep a
row iff its timestamp was not already seen earlier in the sequence. -/
def dedupAux (seen : List Nat) : List Row → List Row
  | [] => []
  | r :: rs =>
    if r.timestamp ∈ seen then dedupAux seen rs
    else r :: dedupAux (r.timestamp :: seen) rs

/-- Line 167: `combined.drop_duplicates(subset=['timestamp'], keep='first')`. -/
def dropDuplicates (l : List Row) : List Row := dedupAux [] l

/-- Lines 141-180, `update_dataset(filename, new_data)`: the merged row
sequence the function returns (and, when `new_data` is non-empty, persists).
`store = none` models a missing store file; `some ex` models an existing file
holding rows `ex`.  Empty `new_data` reads the file through unchanged
(lines 152-156); otherwise an existing file is concatenated in front of the
new rows and deduplicated by timestamp keeping the first occurrence
(lines 158-167), while a missing file takes the new rows as-is (line 173);
the result is sorted by timestamp (line 176). -/
def update_dataset (store : Option (List Row)) (new_data : List Row) : List Row :=
  if new_data = [] then store.getD []
  else
    match store with
    | some ex => sortRows (dropDuplicates (ex ++ new_data))
    | none => sortRows new_data

/-- The store-file state after `update_dataset` ran: the file is rewritten
with the merged rows (line 177) exactly when `new_data` is non-empty; the
empty-batch path (lines 152-156) returns before any write. -/
def storeAfter (store : Option (List Row)) (new_data : List Row) : Option (List Row) :=
  if new_data = [] then store else some (update_dataset store new_data)

/-! ### The windowed fetch loop (`fetch_coinbase_data`, lines 53-139) -/

/-- Parameters of one invocation of the fetch loop: the window end `end_dt`
and the frozen wall clock `now`. -/
structure FetchParams where
  endT : Nat
  now : Nat
deriving DecidableEq

/-- What one `requests.get` call at line 95 does, as seen by the loop:
`ok cs` is an HTTP 200 whose JSON body decodes to the records `cs`
(lines 98-104, covering the empty-body case as `ok []`); `rateLimited` is an
HTTP 429 (line 105); `httpError` any other status (line 109); `timeout` a
`requests.exceptions.Timeout` raised by the call (line 112); `connError` any
other exception raised by the call (line 116). -/
inductive Outcome where
  | ok (candles : List RawRecord)
  | rateLimited
  | httpError
  | timeout
  | connError
deriving DecidableEq

/-- Whether the HTTP call returned a response (of any status), i.e. whether
line 96 (`request_count += 1`) runs. -/
def Outcome.isResponse : Outcome → Bool
  | .ok _ => true
  | .rateLimited => true
  | .httpError => true
  | .timeout => false
  | .connError => false

/-- Loop state of `fetch_coinbase_data`: `current` (line 71), `count` is
`request_count` (line 74), `acc` is `all_data` (line 70).  `requests` logs
every issued request as its `(start, end)` parameters (lines 90-91), and
`log` records the outcome of every issued request, in order; both are
instrumentation of the loop, not program variables. -/
structure FetchState where
  current : Nat
  count : Nat
  acc : List RawRecord
  requests : List (Nat × Nat)
  log : List Outcome
deriving DecidableEq

/-- Loop state on entry: `current = start_dt`, `request_count = 0`. -/
def initFetchState (start : Nat) : FetchState :=
  { current := start, count := 0, acc := [], requests := [], log := [] }

/-- `chunk_hours = 24` (line 72), in seconds. -/
def chunkSpan : Nat := 86400

/-- `max_requests = 500` (line 75). -/
def max_requests : Nat := 500

/-- One iteration of the loop body after the guards passed, given the outcome
of the HTTP call.  `ce` is `chunk_end` after line 78 and the clip at
lines 84-85.  A 200 response extends `all_data` and advances (lines 98-104,
119); a 429 retries the same chunk (line 108) with the counter already
incremented; another status advances anyway (lines 109-110, 119); a timeout
retries the same chunk with the counter untouched (lines 112-115); another
transport exception advances without incrementing (lines 116-119). -/
def fetchStep (p : FetchParams) (o : Outcome) (s : FetchState) : FetchState :=
  let ce0 := min (s.current + chunkSpan) p.endT
  let ce := if ce0 > p.now then p.now else ce0
  let s1 := { s with requests := s.requests ++ [(s.current, ce)], log := s.log ++ [o] }
  match o with
  | .ok cs => { s1 with count := s1.count + 1, acc := s1.acc ++ cs, current := ce }
  | .rateLimited => { s1 with count := s1.count + 1 }
  | .httpError => { s1 with count := s1.count + 1, current := ce }
  | .timeout => s1
  | .connError => { s1 with current := ce }

/-- The condition under which the loop keeps running and issues a request:
the `while` guard at line 77 together with the future-data break at
lines 82-83 (`if current > now: break`). -/
def fetchCont (p : FetchParams) (s : FetchState) : Bool :=
  decide (s.current < p.endT) && decide (s.count < max_requests)
    && !(decide (s.current > p.now))

/-- Run the fetch loop, drawing one HTTP outcome from `trace` per issued
request.  If the trace runs out before the loop exits, the mid-loop state is
returned (the trace is a finite prefix of the provider's behaviour). -/
def runFetch (p : FetchParams) : List Outcome → FetchState → FetchState
  | [], s => s
  | o :: rest, s => if fetchCont p s then runFetch p rest (fetchStep p o s) else s

/-- Lines 122-139: the row sequence `fetch_coinbase_data` returns — empty if
nothing was accumulated (lines 122-124), otherwise the accumulated records
normalized and sorted ascending by timestamp (lines 126-136). -/
def fetch_coinbase_data (p : FetchParams) (trace : List Outcome) (start : Nat) :
    List Row :=
  let s := runFetch p trace (initFetchState start)
  if s.acc = [] then [] else sortRows (s.acc.map normalize)

/-! ### Resume point (`get_last_timestamp`, lines 37-51, and `main`, 192-201) -/

/-- A readable store file: whether the parsed table has a `timestamp` column,
and its rows. -/
structure StoreFile where
  hasTimestampCol : Bool
  rows : List Row

/-- Maximum of the timestamp column (the `df['timestamp'].max()` of
line 48); folds from `0`, which on a non-empty column is its maximum. -/
def maxTs (rows : List Row) : Nat :=
  rows.foldl (fun a r => max a r.timestamp) 0

/-- Lines 37-51, `get_last_timestamp(file_path)`: `none` when the file is
missing or unreadable (lines 39-40 and 49-51, both modelled by the `none`
file), when the table is empty, or when it has no `timestamp` column
(lines 44-45); otherwise the maximum timestamp (line 48). -/
def get_last_timestamp (file : Option StoreFile) : Option Nat :=
  match file with
  | none => none
  | some sf =>
    if sf.rows.isEmpty || !sf.hasTimestampCol then none
    else some (maxTs sf.rows)

/-- `DEFAULT_START_DATE = '2025-01-01'` (line 22) parsed as a UTC instant
(line 200): epoch seconds of 2025-01-01T00:00:00Z. -/
def DEFAULT_START_DATE : Nat := 1735689600

/-- Five minutes, the candle granularity (lines 92 and 196). -/
def fiveMinutes : Nat := 300

/-- Lines 192-201 of `main`: the fetch window start — `last_ts +
timedelta(minutes=5)` when a last timestamp exists, else the default start
date. -/
def determineStart (file : Option StoreFile) : Nat :=
  match get_last_timestamp file with
  | some t => t + fiveMinutes
  | none => DEFAULT_START_DATE

/-! ### Helper lemmas about sorting and deduplication -/

theorem sortRows_perm (l : List Row) : List.Perm (sortRows l) l :=
  List.perm_insertionSort rowLE l

theorem sortRows_sorted (l : List Row) : List.Sorted rowLE (sortRows l) :=
  List.sorted_insertionSort rowLE l

theorem sortRows_of_sorted {l : List Row} (h : List.Sorted rowLE l) :
    sortRows l = l :=
  h.insertionSort_eq

theorem tsList_perm {l l' : List Row} (h : List.Perm l l') : List.Perm (tsList l) (tsList l') :=
  h.map Row.timestamp

theorem dedupAux_nodup : ∀ (l : List Row) (seen : List Nat),
    (tsList (dedupAux seen l)).Nodup ∧ ∀ t ∈ tsList (dedupAux seen l), t ∉ seen := by
  intro l
  induction l with
  | nil => intro seen; simp [dedupAux, tsList]
  | cons r rs ih =>
    intro seen
    by_cases h : r.timestamp ∈ seen
    · simpa [dedupAux, h] using ih seen
    · obtain ⟨hnd, hni⟩ := ih (r.timestamp :: seen)
      refine ⟨?_, ?_⟩
      · simp only [dedupAux, if_neg h, tsList, List.map_cons, List.nodup_cons]
        exact ⟨fun hmem => (hni _ hmem) (List.mem_cons_self _ _), hnd⟩
      · intro t ht
        simp only [dedupAux, if_neg h, tsList, List.map_cons, List.mem_cons] at ht
        rcases ht with rfl | ht
        · exact h
        · exact fun hts => (hni t ht) (List.mem_cons_of_mem _ hts)

theorem dedupAux_sublist : ∀ (l : List Row) (seen : List Nat), List.Sublist (dedupAux seen l) l := by
  intro l
  induction l with
  | nil => intro seen; simp [dedupAux]
  | cons r rs ih =>
    intro seen
    by_cases h : r.timestamp ∈ seen
    · simp only [dedupAux, if_pos h]
      exact (ih seen).cons _
    · simp only [dedupAux, if_neg h]
      exact (ih _).cons₂ _

theorem dedupAux_ts_cover : ∀ (l : List Row) (seen : List Nat) (t : Nat),
    t ∈ tsList l → t ∈ tsList (dedupAux seen l) ∨ t ∈ seen := by
  intro l
  induction l with
  | nil => intro seen t ht; simp [tsList] at ht
  | cons r rs ih =>
    intro seen t ht
    simp only [tsList, List.map_cons, List.mem_cons] at ht
    by_cases h : r.timestamp ∈ seen
    · simp only [dedupAux, if_pos h]
      rcases ht with rfl | ht
      · exact Or.inr h
      · exact ih seen t ht
    · simp only [dedupAux, if_neg h, tsList, List.map_cons, List.mem_cons]
      rcases ht with rfl | ht
      · exact Or.inl (Or.inl rfl)
      · rcases ih (r.timestamp :: seen) t ht with hin | hin
        · exact Or.inl (Or.inr hin)
        · rcases List.mem_cons.mp hin with rfl | hin
          · exact Or.inl (Or.inl rfl)
          · exact Or.inr hin

theorem dedupAux_eq_nil : ∀ (l : List Row) (seen : List Nat),
    (∀ r ∈ l, r.timestamp ∈ seen) → dedupAux seen l = [] := by
  intro l
  induction l with
  | nil => intro seen _; rfl
  | cons r rs ih =>
    intro seen h
    have hr : r.timestamp ∈ seen := h r (List.mem_cons_self _ _)
    simp only [dedupAux, if_pos hr]
    exact ih seen fun x hx => h x (List.mem_cons_of_mem _ hx)

theorem dedupAux_append (l₂ : List Row) : ∀ (l₁ : List Row) (seen : List Nat),
    (tsList l₁).Nodup → (∀ t ∈ tsList l₁, t ∉ seen) →
    dedupAux seen (l₁ ++ l₂) = l₁ ++ dedupAux ((tsList l₁).reverse ++ seen) l₂ := by
  intro l₁
  induction l₁ with
  | nil => intro seen _ _; simp [tsList]
  | cons r rs ih =>
    intro seen hnd hni
    simp only [tsList, List.map_cons, List.nodup_cons] at hnd
    have hr : r.timestamp ∉ seen := hni _ (by simp [tsList])
    simp only [List.cons_append, dedupAux, if_neg hr, List.append_eq]
    rw [ih (r.timestamp :: seen) hnd.2 ?side]
    case side =>
      intro t ht hmem
      rcases List.mem_cons.mp hmem with h1 | h1
      · exact hnd.1 (h1 ▸ ht)
      · exact hni t (by simp only [tsList, List.map_cons, List.mem_cons]; exact Or.inr ht) h1
    simp [tsList, List.reverse_cons, List.append_assoc]

theorem dropDuplicates_ts_nodup (l : List Row) : (tsList (dropDuplicates l)).Nodup :=
  (dedupAux_nodup l []).1

theorem dropDuplicates_ts_cover {l : List Row} {t : Nat} (h : t ∈ tsList l) :
    t ∈ tsList (dropDuplicates l) :=
  (dedupAux_ts_cover l [] t h).resolve_right (by simp)

theorem dropDuplicates_append {ex : List Row} (new : List Row)
    (hnd : (tsList ex).Nodup) :
    dropDuplicates (ex ++ new) = ex ++ dedupAux (tsList ex).reverse new := by
  have h := dedupAux_append new ex [] hnd (by simp)
  simpa [dropDuplicates] using h

theorem dropDuplicates_append_eq_self {ex : List Row} (new : List Row)
    (hnd : (tsList ex).Nodup) (hsub : ∀ r ∈ new, r.timestamp ∈ tsList ex) :
    dropDuplicates (ex ++ new) = ex := by
  rw [dropDuplicates_append new hnd,
      dedupAux_eq_nil new _ fun r hr => List.mem_reverse.mpr (hsub r hr),
      List.append_nil]

theorem row_eq_of_ts_eq {l : List Row} (hnd : (tsList l).Nodup) {a b : Row}
    (ha : a ∈ l) (hb : b ∈ l) (h : a.timestamp = b.timestamp) : a = b :=
  List.inj_on_of_nodup_map (by simpa [tsList] using hnd) ha hb h

/-! ### Helper lemmas about the fetch loop -/

theorem le_now_of_fetchCont {p : FetchParams} {s : FetchState}
    (h : fetchCont p s = true) : s.current ≤ p.now := by
  simp only [fetchCont, Bool.and_eq_true, Bool.not_eq_true', decide_eq_true_eq,
    decide_eq_false_iff_not] at h
  omega

theorem fetchCont_false_of_end {p : FetchParams} {s : FetchState}
    (h : ¬ s.current < p.endT) : fetchCont p s = false := by
  simp [fetchCont, h]

theorem runFetch_stop (p : FetchParams) (s : FetchState)
    (h : fetchCont p s = false) : ∀ trace, runFetch p trace s = s := by
  intro trace
  cases trace with
  | nil => rfl
  | cons o rest => simp [runFetch, h]

theorem fetchStep_log (p : FetchParams) (o : Outcome) (s : FetchState) :
    (fetchStep p o s).log = s.log ++ [o] := by
  cases o <;> rfl

theorem fetchStep_count (p : FetchParams) (o : Outcome) (s : FetchState) :
    (fetchStep p o s).count = s.count + (if o.isResponse then 1 else 0) := by
  cases o <;> simp [fetchStep, Outcome.isResponse]

theorem fetchStep_requests (p : FetchParams) (o : Outcome) (s : FetchState) :
    ∃ e : Nat × Nat, (fetchStep p o s).requests = s.requests ++ [e]
      ∧ e.1 = s.current := by
  cases o <;> exact ⟨_, rfl, rfl⟩

theorem runFetch_requests_le_now (p : FetchParams) :
    ∀ (trace : List Outcome) (s : FetchState),
    (∀ ab ∈ s.requests, ab.1 ≤ p.now) →
    ∀ ab ∈ (runFetch p trace s).requests, ab.1 ≤ p.now := by
  intro trace
  induction trace with
  | nil => intro s h; exact h
  | cons o rest ih =>
    intro s h
    by_cases hc : fetchCont p s = true
    · simp only [runFetch, hc, if_true]
      apply ih
      obtain ⟨e, he, he1⟩ := fetchStep_requests p o s
      rw [he]
      intro ab hab
      rcases List.mem_append.mp hab with hab | hab
      · exact h ab hab
      · have hab' : ab = e := by simpa using hab
        subst hab'
        rw [he1]
        exact le_now_of_fetchCont hc
    · simp only [runFetch, if_neg hc]
      exact h

theorem runFetch_count_inv (p : FetchParams) :
    ∀ (trace : List Outcome) (s : FetchState),
    s.count = (s.log.filter Outcome.isResponse).length →
    s.requests.length = s.log.length →
    (runFetch p trace s).count
        = ((runFetch p trace s).log.filter Outcome.isResponse).length
      ∧ (runFetch p trace s).requests.length = (runFetch p trace s).log.length := by
  intro trace
  induction trace with
  | nil => intro s h1 h2; exact ⟨h1, h2⟩
  | cons o rest ih =>
    intro s h1 h2
    by_cases hc : fetchCont p s = true
    · simp only [runFetch, hc, if_true]
      apply ih
      · rw [fetchStep_count, fetchStep_log, List.filter_append, List.length_append, h1]
        cases o <;> simp [Outcome.isResponse]
      · obtain ⟨e, he, -⟩ := fetchStep_requests p o s
        rw [he, fetchStep_log, List.length_append, List.length_append, h2]
        rfl
    · simp only [runFetch, if_neg hc]
      exact ⟨h1, h2⟩

theorem fetchCont_big_clock (p : FetchParams) (hnow : p.endT ≤ p.now)
    (s : FetchState) : fetchCont p s = fetchCont ⟨p.endT, p.endT⟩ s := by
  by_cases h : s.current < p.endT
  · have h1 : ¬ s.current > p.now := by omega
    have h2 : ¬ s.current > p.endT := by omega
    simp [fetchCont, h, h1, h2]
  · simp [fetchCont, h]

theorem fetchStep_big_clock (p : FetchParams) (hnow : p.endT ≤ p.now)
    (o : Outcome) (s : FetchState) :
    fetchStep p o s = fetchStep ⟨p.endT, p.endT⟩ o s := by
  have hce : min (s.current + chunkSpan) p.endT ≤ p.endT := min_le_right _ _
  cases o <;>
    simp only [fetchStep] <;>
    rw [if_neg (by omega : ¬ min (s.current + chunkSpan) p.endT > p.now),
        if_neg (by omega : ¬ min (s.current + chunkSpan) p.endT > p.endT)]

theorem runFetch_big_clock (p : FetchParams) (hnow : p.endT ≤ p.now) :
    ∀ (trace : List Outcome) (s : FetchState),
    runFetch p trace s = runFetch ⟨p.endT, p.endT⟩ trace s := by
  intro trace
  induction trace with
  | nil => intro s; rfl
  | cons o rest ih =>
    intro s
    simp only [runFetch, fetchCont_big_clock p hnow s, fetchStep_big_clock p hnow o s,
      ih]

/-! ### C1 — merge with incumbent priority -/

/-- C1 as stated is false: `update_dataset` can remove a row that was present
before the merge.  A store file holding two rows at the same timestamp (a
state the program itself can produce: a first run with no store file persists
the fetched batch without deduplication) loses its second row at that
timestamp during the next merge, even though no incoming row collides with
it. -/
theorem C1_counterexample :
    let e₁ : Row := ⟨0, none, none, none, some 100, none, "coinbase"⟩
    let e₂ : Row := ⟨0, none, none, none, some 200, none, "coinbase"⟩
    let n : Row := ⟨300, none, none, none, some 1, none, "coinbase"⟩
    e₂ ∈ [e₁, e₂] ∧ e₂ ∉ update_dataset (some [e₁, e₂]) [n] := by
  decide

/-- C1 (amended): for every existing store whose rows have pairwise-distinct
timestamps and every incoming row batch, every row present before the merge
is still present after it, and whenever an incoming row's timestamp equals
the timestamp of an existing row, every merged row at that timestamp is the
existing row (so the incoming row's values are discarded). -/
theorem C1_incumbent_priority (ex new : List Row) (hnd : (tsList ex).Nodup) :
    (∀ e ∈ ex, e ∈ update_dataset (some ex) new)
      ∧ (∀ n ∈ new, ∀ e ∈ ex, n.timestamp = e.timestamp →
          ∀ r ∈ update_dataset (some ex) new, r.timestamp = e.timestamp → r = e) := by
  by_cases hne : new = []
  · subst hne
    simp only [update_dataset, if_pos rfl, Option.getD_some]
    exact ⟨fun e he => he, fun n hn => absurd hn (List.not_mem_nil n)⟩
  · have hupd : update_dataset (some ex) new
        = sortRows (dropDuplicates (ex ++ new)) := by
      simp [update_dataset, hne]
    have hperm : List.Perm (update_dataset (some ex) new)
        (dropDuplicates (ex ++ new)) := hupd ▸ sortRows_perm _
    have hdd : dropDuplicates (ex ++ new)
        = ex ++ dedupAux (tsList ex).reverse new := dropDuplicates_append new hnd
    have hmem : ∀ e ∈ ex, e ∈ update_dataset (some ex) new := by
      intro e he
      exact hperm.mem_iff.mpr (hdd ▸ List.mem_append_left _ he)
    refine ⟨hmem, ?_⟩
    intro n hn e he hts r hr hrts
    have hnodup : (tsList (update_dataset (some ex) new)).Nodup :=
      ((tsList_perm hperm).nodup_iff).mpr (dropDuplicates_ts_nodup _)
    exact row_eq_of_ts_eq hnodup hr (hmem e he) hrts

/-- Witness for C1: a store holding one row at timestamp 0 with close 100,
merged with an incoming row at timestamp 0 with close 999, still contains the
incumbent row. -/
theorem C1_incumbent_priority_witness :
    (⟨0, none, none, none, some 100, none, "coinbase"⟩ : Row)
      ∈ update_dataset (some [⟨0, none, none, none, some 100, none, "coinbase"⟩])
          [⟨0, none, none, none, some 999, none, "coinbase"⟩] :=
  (C1_incumbent_priority [⟨0, none, none, none, some 100, none, "coinbase"⟩]
      [⟨0, none, none, none, some 999, none, "coinbase"⟩] (by decide)).1
    _ (by decide)

/-! ### C2 — store invariant after merge -/

/-- C2 as stated is false: when no store file exists yet, the incoming batch
is persisted without deduplication (line 173 skips `drop_duplicates`), so a
batch holding two rows at the same timestamp yields a persisted store with a
duplicated timestamp. -/
theorem C2_counterexample :
    let r₁ : Row := ⟨0, none, none, none, some 1, none, "coinbase"⟩
    let r₂ : Row := ⟨0, none, none, none, some 2, none, "coinbase"⟩
    ¬ (tsList (update_dataset none [r₁, r₂])).Nodup := by
  decide

/-- C2 (amended): for every prior store state and non-empty incoming batch,
the persisted sequence is sorted non-decreasing by timestamp; it has
pairwise-distinct timestamps whenever the store file exists, and, when no
store file exists yet, whenever the incoming batch's timestamps are pairwise
distinct. -/
theorem C2_store_invariant (store : Option (List Row)) (new : List Row)
    (hne : new ≠ []) :
    List.Sorted rowLE (update_dataset store new)
      ∧ (∀ ex, store = some ex → (tsList (update_dataset store new)).Nodup)
      ∧ (store = none → (tsList new).Nodup →
          (tsList (update_dataset store new)).Nodup) := by
  cases store with
  | some ex =>
    have hupd : update_dataset (some ex) new
        = sortRows (dropDuplicates (ex ++ new)) := by
      simp [update_dataset, hne]
    refine ⟨hupd ▸ sortRows_sorted _, ?_, ?_⟩
    · intro ex2 _
      rw [hupd]
      exact ((tsList_perm (sortRows_perm _)).nodup_iff).mpr (dropDuplicates_ts_nodup _)
    · intro h; exact absurd h (by simp)
  | none =>
    have hupd : update_dataset none new = sortRows new := by
      simp [update_dataset, hne]
    refine ⟨hupd ▸ sortRows_sorted _, ?_, ?_⟩
    · intro ex2 h; exact absurd h (by simp)
    · intro _ hnd
      rw [hupd]
      exact ((tsList_perm (sortRows_perm _)).nodup_iff).mpr hnd

/-- Witness for C2: merging one row into an existing empty store file yields
a sorted, duplicate-free persisted sequence. -/
theorem C2_store_invariant_witness :
    List.Sorted rowLE
        (update_dataset (some []) [⟨0, none, none, none, none, none, "coinbase"⟩])
      ∧ (tsList
          (update_dataset (some []) [⟨0, none, none, none, none, none, "coinbase"⟩])).Nodup := by
  have h := C2_store_invariant (some [])
    [⟨0, none, none, none, none, none, "coinbase"⟩] (by decide)
  exact ⟨h.1, h.2.1 [] rfl⟩

/-! ### C3 — idempotence of merge -/

/-- C3 as stated is false: starting from no store file, merging a batch that
holds two rows at the same timestamp persists both (no deduplication on the
no-file path), and merging the identical batch again then removes one of
them, so the second merge does not yield a store identical to the first. -/
theorem C3_counterexample :
    let r₁ : Row := ⟨0, none, none, none, some 1, none, "coinbase"⟩
    let r₂ : Row := ⟨0, none, none, none, some 2, none, "coinbase"⟩
    update_dataset (storeAfter none [r₁, r₂]) [r₁, r₂]
      ≠ update_dataset none [r₁, r₂] := by
  decide

/-- C3 (amended): merging the same batch twice yields an identical store,
provided the store file already exists before the first merge or the batch's
timestamps are pairwise distinct (the combination that fails is exactly a
first-ever merge of a batch with an internal timestamp collision). -/
theorem C3_merge_idempotent (store : Option (List Row)) (new : List Row)
    (h : store ≠ none ∨ (tsList new).Nodup) :
    update_dataset (storeAfter store new) new = update_dataset store new := by
  by_cases hne : new = []
  · subst hne
    rw [storeAfter, if_pos rfl]
  · have hstore : storeAfter store new = some (update_dataset store new) := by
      rw [storeAfter, if_neg hne]
    set M := update_dataset store new with hM
    have hsorted : List.Sorted rowLE M := by
      cases store with
      | some ex => rw [hM]; simp only [update_dataset, if_neg hne]; exact sortRows_sorted _
      | none => rw [hM]; simp only [update_dataset, if_neg hne]; exact sortRows_sorted _
    have hnodup : (tsList M).Nodup := by
      cases store with
      | some ex =>
        rw [hM]; simp only [update_dataset, if_neg hne]
        exact ((tsList_perm (sortRows_perm _)).nodup_iff).mpr (dropDuplicates_ts_nodup _)
      | none =>
        have hnd : (tsList new).Nodup := by
          rcases h with h | h
          · exact absurd rfl h
          · exact h
        rw [hM]; simp only [update_dataset, if_neg hne]
        exact ((tsList_perm (sortRows_perm _)).nodup_iff).mpr hnd
    have hcov : ∀ r ∈ new, r.timestamp ∈ tsList M := by
      intro r hr
      cases store with
      | some ex =>
        rw [hM]; simp only [update_dataset, if_neg hne]
        refine ((tsList_perm (sortRows_perm _)).mem_iff).mpr ?_
        exact dropDuplicates_ts_cover
          (by simp only [tsList, List.map_append, List.mem_append]
              exact Or.inr (List.mem_map_of_mem _ hr))
      | none =>
        rw [hM]; simp only [update_dataset, if_neg hne]
        exact ((tsList_perm (sortRows_perm _)).mem_iff).mpr (List.mem_map_of_mem _ hr)
    rw [hstore]
    simp only [update_dataset, if_neg hne]
    rw [dropDuplicates_append_eq_self new hnodup hcov, sortRows_of_sorted hsorted]

/-- Witness for C3: a first-ever merge of a single-row batch is idempotent. -/
theorem C3_merge_idempotent_witness :
    update_dataset (storeAfter none [⟨0, none, none, none, some 1, none, "coinbase"⟩])
        [⟨0, none, none, none, some 1, none, "coinbase"⟩]
      = update_dataset none [⟨0, none, none, none, some 1, none, "coinbase"⟩] :=
  C3_merge_idempotent none [⟨0, none, none, none, some 1, none, "coinbase"⟩]
    (Or.inr (by decide))

/-! ### C4 — bounded termination of the fetch loop -/

set_option maxRecDepth 4000 in
/-- C4: the 500-request ceiling does not bound a timeout storm.  The counter
at line 96 runs only after `requests.get` returns, so a request that ends in
a transport timeout (line 112) is retried at the same chunk with
`request_count` unchanged.  With window `[0, 86400)`, clock 86400 and a
provider that times out on each of the first 501 requests, the loop has
issued 501 requests, the counter is still 0, and the loop's
continue-condition still holds — contradicting termination after at most 500
issued requests.  (The claim matches the code's stated intent — line 75 calls
the ceiling a "Safety limit" — so this is recorded as a code bug.) -/
theorem C4_timeout_storm :
    let p : FetchParams := ⟨86400, 86400⟩
    let s := runFetch p (List.replicate 501 Outcome.timeout) (initFetchState 0)
    s.requests.length = 501 ∧ s.count = 0 ∧ fetchCont p s = true := by
  decide

/-! ### C5 — future-data guard -/

/-- C5 as stated is false: the code's guard (line 82) is strict
(`if current > now: break`), so a chunk whose start is exactly the current
instant is still requested (with its end clipped to `now`).  With the clock
at 1000 and a window starting at 1000, the request `(1000, 1000)` is
issued, and its start is at (hence at-or-after) the current instant. -/
theorem C5_counterexample :
    (1000, 1000) ∈ (runFetch ⟨2000, 1000⟩ [Outcome.ok []]
        (initFetchState 1000)).requests
      ∧ 1000 ≥ (⟨2000, 1000⟩ : FetchParams).now := by
  decide

/-- C5 (amended): a chunk whose start is strictly after the current instant
is never requested — every issued request's start timestamp is at most
`now`. -/
theorem C5_future_guard (p : FetchParams) (trace : List Outcome) (start : Nat) :
    ∀ ab ∈ (runFetch p trace (initFetchState start)).requests, ab.1 ≤ p.now := by
  apply runFetch_requests_le_now
  intro ab hab
  simp [initFetchState] at hab

/-- Witness for C5: the single request issued for a window starting at 0
with the clock at 86400 starts no later than the clock. -/
theorem C5_future_guard_witness :
    ((0, 2000) : Nat × Nat).1 ≤ (⟨2000, 86400⟩ : FetchParams).now :=
  C5_future_guard ⟨2000, 86400⟩ [Outcome.ok []] 0 (0, 2000) (by decide)

/-! ### C6 — fetcher output contract -/

/-- C6 as stated is false: `fetch_coinbase_data` sorts its output (line 136)
but never deduplicates it, so two chunks whose responses share a boundary
candle yield an output with a duplicated timestamp.  Fetching `[0, 172800)`
in two 24-hour chunks, where each response contains a candle at epoch 86400
(the shared chunk boundary), returns two rows with timestamp 86400. -/
theorem C6_counterexample :
    let ra : RawRecord := (86400, .num 1, .num 1, .num 1, .num 1, .num 1)
    let rb : RawRecord := (86400, .num 2, .num 2, .num 2, .num 2, .num 2)
    ¬ (tsList (fetch_coinbase_data ⟨172800, 1000000000⟩
        [Outcome.ok [ra], Outcome.ok [rb]] 0)).Nodup := by
  decide

/-- C6 (amended): for every window and provider behaviour, the row sequence
returned by the windowed fetch is sorted non-decreasing by timestamp (but it
is not deduplicated within the batch). -/
theorem C6_fetch_sorted (p : FetchParams) (trace : List Outcome) (start : Nat) :
    List.Sorted rowLE (fetch_coinbase_data p trace start) := by
  simp only [fetch_coinbase_data]
  split
  · exact List.sorted_nil
  · exact sortRows_sorted _

/-! ### C10 — the request counter counts responses, not issued requests -/

/-- C10: an iteration that ends in a transport timeout leaves both the
request counter and the current chunk position unchanged, and over any run
of the loop the counter equals the number of issued requests that received a
response (of any status), while the number of issued requests equals the
number of HTTP-call outcomes consumed. -/
theorem C10_counter_semantics (p : FetchParams) (s : FetchState)
    (trace : List Outcome) (start : Nat) :
    ((fetchStep p Outcome.timeout s).count = s.count
        ∧ (fetchStep p Outcome.timeout s).current = s.current)
      ∧ ((runFetch p trace (initFetchState start)).count
            = ((runFetch p trace (initFetchState start)).log.filter
                Outcome.isResponse).length
          ∧ (runFetch p trace (initFetchState start)).requests.length
            = (runFetch p trace (initFetchState start)).log.length) := by
  refine ⟨⟨rfl, rfl⟩, ?_⟩
  exact runFetch_count_inv p trace (initFetchState start) rfl rfl

/-! ### C7 — resume correctness -/

theorem foldl_max_le : ∀ (l : List Nat) (a T : Nat), a ≤ T → (∀ t ∈ l, t ≤ T) →
    l.foldl max a ≤ T := by
  intro l
  induction l with
  | nil => intro a T h _; exact h
  | cons x xs ih =>
    intro a T h hl
    exact ih (max a x) T (max_le h (hl x (List.mem_cons_self _ _)))
      fun t ht => hl t (List.mem_cons_of_mem _ ht)

theorem le_foldl_max : ∀ (l : List Nat) (a : Nat), a ≤ l.foldl max a := by
  intro l
  induction l with
  | nil => intro a; exact le_refl a
  | cons x xs ih => intro a; exact le_trans (le_max_left a x) (ih (max a x))

theorem mem_le_foldl_max : ∀ (l : List Nat) (a T : Nat), T ∈ l → T ≤ l.foldl max a := by
  intro l
  induction l with
  | nil => intro a T h; exact absurd h (List.not_mem_nil T)
  | cons x xs ih =>
    intro a T h
    rcases List.mem_cons.mp h with rfl | h
    · exact le_trans (le_max_right a T) (le_foldl_max xs _)
    · exact ih (max a x) T h

theorem maxTs_eq {rows : List Row} {T : Nat} (hmem : T ∈ tsList rows)
    (hmax : ∀ t ∈ tsList rows, t ≤ T) : maxTs rows = T := by
  have h1 : maxTs rows = (tsList rows).foldl max 0 := by
    rw [tsList, List.foldl_map]
    rfl
  rw [h1]
  exact le_antisymm (foldl_max_le _ 0 T (Nat.zero_le T) hmax)
    (mem_le_foldl_max _ 0 T hmem)

/-- C7: when the persisted store is readable, non-empty and has a timestamp
column, with maximum timestamp `T`, the next invocation's fetch window starts
at exactly `T + 5 minutes`; when the store is missing (or unreadable), empty,
or lacks a timestamp column, the start is the configured default epoch. -/
theorem C7_resume_correctness (sf : StoreFile) (T : Nat)
    (hcol : sf.hasTimestampCol = true) (hmem : T ∈ tsList sf.rows)
    (hmax : ∀ t ∈ tsList sf.rows, t ≤ T) :
    determineStart (some sf) = T + fiveMinutes
      ∧ determineStart none = DEFAULT_START_DATE
      ∧ (∀ sf₂ : StoreFile, sf₂.rows = [] →
          determineStart (some sf₂) = DEFAULT_START_DATE)
      ∧ (∀ sf₂ : StoreFile, sf₂.hasTimestampCol = false →
          determineStart (some sf₂) = DEFAULT_START_DATE) := by
  refine ⟨?_, rfl, ?_, ?_⟩
  · have hne : sf.rows.isEmpty = false := by
      cases h : sf.rows with
      | nil => rw [h] at hmem; exact absurd hmem (by simp [tsList])
      | cons a l => rfl
    simp [determineStart, get_last_timestamp, hne, hcol, maxTs_eq hmem hmax]
  · intro sf₂ h2
    simp [determineStart, get_last_timestamp, h2]
  · intro sf₂ h2
    simp [determineStart, get_last_timestamp, h2]

/-- Witness for C7: a readable one-row store with maximum timestamp 600
resumes at 600 + 300. -/
theorem C7_resume_correctness_witness :
    determineStart (some ⟨true, [⟨600, none, none, none, none, none, "coinbase"⟩]⟩)
      = 600 + fiveMinutes :=
  (C7_resume_correctness ⟨true, [⟨600, none, none, none, none, none, "coinbase"⟩]⟩
    600 rfl (by decide) (by decide)).1

/-! ### C8 — partition coverage -/

/-- C8: fetching the window `[2025-01-01T00:00Z, 2025-01-03T00:00Z)` (epoch
1735689600 to 1735862400) with a 24-hour chunk span, when the current instant
is at or after the window end and every issued request receives an HTTP 200
response, issues exactly 2 chunk requests with boundaries
`[Jan 1 00:00, Jan 2 00:00)` and `[Jan 2 00:00, Jan 3 00:00)`. -/
theorem C8_partition_coverage (now : Nat) (h : 1735862400 ≤ now)
    (p1 p2 : List RawRecord) (rest : List Outcome) :
    (runFetch ⟨1735862400, now⟩ (Outcome.ok p1 :: Outcome.ok p2 :: rest)
        (initFetchState 1735689600)).requests
      = [(1735689600, 1735776000), (1735776000, 1735862400)] := by
  have unfold1 : ∀ (o : Outcome) (tr : List Outcome) (s : FetchState),
      fetchCont ⟨1735862400, 1735862400⟩ s = true →
      runFetch ⟨1735862400, 1735862400⟩ (o :: tr) s
        = runFetch ⟨1735862400, 1735862400⟩ tr
            (fetchStep ⟨1735862400, 1735862400⟩ o s) := by
    intro o tr s hc
    simp [runFetch, hc]
  have hmin1 : min (1735689600 + chunkSpan) 1735862400 = 1735776000 := by decide
  have hmin2 : min (1735776000 + chunkSpan) 1735862400 = 1735862400 := by decide
  have e1 : fetchStep ⟨1735862400, 1735862400⟩ (Outcome.ok p1)
        (initFetchState 1735689600)
      = { current := 1735776000, count := 1, acc := p1,
          requests := [(1735689600, 1735776000)], log := [Outcome.ok p1] } := by
    simp [fetchStep, initFetchState, hmin1]
  have e2 : fetchStep ⟨1735862400, 1735862400⟩ (Outcome.ok p2)
        ({ current := 1735776000, count := 1, acc := p1,
           requests := [(1735689600, 1735776000)],
           log := [Outcome.ok p1] } : FetchState)
      = { current := 1735862400, count := 2, acc := p1 ++ p2,
          requests := [(1735689600, 1735776000), (1735776000, 1735862400)],
          log := [Outcome.ok p1, Outcome.ok p2] } := by
    simp [fetchStep, hmin2]
  rw [runFetch_big_clock ⟨1735862400, now⟩ h]
  dsimp only
  rw [unfold1 _ _ _ (by decide), e1, unfold1 _ _ _ (by simp [fetchCont, max_requests]),
    e2, runFetch_stop _ _ (by simp [fetchCont]) rest]

/-- Witness for C8: at clock exactly the window end, with two 200 responses
carrying empty bodies, the two requests have the stated boundaries. -/
theorem C8_partition_coverage_witness :
    (runFetch ⟨1735862400, 1735862400⟩ [Outcome.ok [], Outcome.ok []]
        (initFetchState 1735689600)).requests
      = [(1735689600, 1735776000), (1735776000, 1735862400)] :=
  C8_partition_coverage 1735862400 (le_refl _) [] [] []

/-! ### C9 — normalizer contract -/

/-- C9: normalization maps one raw positional record
`[epoch_seconds, low, high, open, close, volume]` to exactly one canonical
row whose `timestamp` is the epoch-seconds field, whose `open`, `high` and
`low` fields carry the provider's fourth, third and second positions
respectively, whose `source` is the fixed provider tag, and whose numeric
fields are coerced with a null sentinel for malformed input; a batch is never
aborted — every record yields exactly one row. -/
theorem C9_normalizer (t : Nat) (l h o c v : RawField) (recs : List RawRecord) :
    normalize (t, l, h, o, c, v)
        = { timestamp := t, «open» := coerceNum o, high := coerceNum h,
            low := coerceNum l, close := coerceNum c, volume := coerceNum v,
            source := "coinbase" }
      ∧ coerceNum RawField.malformed = none
      ∧ (∀ q : Rat, coerceNum (RawField.num q) = some q)
      ∧ (recs.map normalize).length = recs.length :=
  ⟨rfl, rfl, fun _ => rfl, recs.length_map normalize⟩

end BtcFetch
